import Mathlib

/-!
Verification of the bskyTools repository (bsky_list_tool/bskylisttool.py,
scratch/bskyMassLister.py, bskyListBackup.py) against its specification.

The Python source is shallowly embedded: pure string manipulation is modelled
over `List Char`, server interaction over explicit oracle functions, and the
mutable client state (created membership records, issued write calls, the
clock backing get_current_time_iso) as explicit state records.  Fallible
operations return `Option` or `Except`.
-/

namespace BskyTools

/-! ### Pagination engine

Embeds the cursor loop shared by `backup_list`, `get_followers` and
`get_likes` (bskylisttool.py lines 101-136):

    cursor = None
    while True:
        page = fetch(cursor, limit=100)
        cursor = page.cursor
        for entry in page.items: emit(project(entry))
        if cursor is None: break

`paginateLoop server project fuel cur` runs the loop with an explicit fuel
bound; a `some` result means the loop reached its `break` within `fuel`
iterations, and the returned `Nat` counts the fetch calls performed.
-/

def paginateLoop (server : Option Nat → List α × Option Nat) (project : α → β) :
    Nat → Option Nat → Option (List β × Nat)
  | 0, _ => none
  | Nat.succ fuel, cur =>
    let page := server cur
    match page.2 with
    | none => some (page.1.map project, 1)
    | some c =>
      match paginateLoop server project fuel (some c) with
      | none => none
      | some (rest, calls) => some (page.1.map project ++ rest, calls + 1)

/-- A server that serves the collection `ps` page by page: the cursor is the
index of the next page, it is present on every page except the last, and the
initial absent cursor designates page 0 (as in the Python loop, whose first
request passes `cursor=None`). -/
def servePages (ps : List (List α)) (cur : Option Nat) : List α × Option Nat :=
  let i := cur.getD 0
  (ps.getD i [], if i + 1 < ps.length then some (i + 1) else none)

theorem paginateLoop_succ (server : Option Nat → List α × Option Nat)
    (project : α → β) (fuel : Nat) (cur : Option Nat) :
    paginateLoop server project (fuel + 1) cur =
      match (server cur).2 with
      | none => some ((server cur).1.map project, 1)
      | some c =>
        match paginateLoop server project fuel (some c) with
        | none => none
        | some (rest, calls) => some ((server cur).1.map project ++ rest, calls + 1) :=
  rfl

theorem paginateLoop_succ_none (server : Option Nat → List α × Option Nat)
    (project : α → β) (fuel : Nat) (cur : Option Nat) (h : (server cur).2 = none) :
    paginateLoop server project (fuel + 1) cur = some ((server cur).1.map project, 1) := by
  rw [paginateLoop_succ, h]

theorem paginateLoop_succ_some (server : Option Nat → List α × Option Nat)
    (project : α → β) (fuel : Nat) (cur : Option Nat) (c : Nat)
    (h : (server cur).2 = some c) :
    paginateLoop server project (fuel + 1) cur =
      match paginateLoop server project fuel (some c) with
      | none => none
      | some (rest, calls) => some ((server cur).1.map project ++ rest, calls + 1) := by
  rw [paginateLoop_succ, h]

theorem paginateLoop_servePages (ps : List (List α)) (project : α → β) :
    ∀ (d : Nat) (c : Option Nat), c.getD 0 < ps.length → d = ps.length - c.getD 0 →
      paginateLoop (servePages ps) project d c =
        some (((ps.drop (c.getD 0)).flatten).map project, d) := by
  intro d
  induction d with
  | zero => intro c hc hd; omega
  | succ d ih =>
    intro c hc hd
    have hdrop : ps.drop (c.getD 0) = ps[c.getD 0] :: ps.drop (c.getD 0 + 1) :=
      List.drop_eq_getElem_cons hc
    have h1 : (servePages ps c).1 = ps[c.getD 0] := by
      show ps.getD (c.getD 0) [] = ps[c.getD 0]
      exact List.getD_eq_getElem ps [] hc
    by_cases hlt : c.getD 0 + 1 < ps.length
    · have h2lt : (servePages ps c).2 = some (c.getD 0 + 1) := by
        show (if c.getD 0 + 1 < ps.length then some (c.getD 0 + 1) else none) = _
        rw [if_pos hlt]
      have ihc := ih (some (c.getD 0 + 1)) (by simpa using hlt)
        (by simp only [Option.getD_some]; omega)
      simp only [Option.getD_some] at ihc
      rw [paginateLoop_succ_some (servePages ps) project d c (c.getD 0 + 1) h2lt, ihc, h1,
        hdrop, List.flatten_cons, List.map_append]
    · have h2n : (servePages ps c).2 = none := by
        show (if c.getD 0 + 1 < ps.length then some (c.getD 0 + 1) else none) = _
        rw [if_neg hlt]
      have hlast : ps.drop (c.getD 0 + 1) = [] := List.drop_eq_nil_of_le (by omega)
      have hd1 : d = 0 := by omega
      rw [paginateLoop_succ_none (servePages ps) project d c h2n, h1, hd1, hdrop, hlast,
        List.flatten_cons, List.flatten_nil, List.append_nil]

theorem sum_map_length_const (l : List (List α)) (h : ∀ p ∈ l, p.length = 100) :
    (l.map List.length).sum = 100 * l.length := by
  induction l with
  | nil => simp
  | cons x xs ih =>
    have hx := h x (by simp)
    have ihx := ih (fun p hp => h p (by simp [hp]))
    simp [hx, ihx]
    ring

/-- C1 counterexample: a collection of 2 items served as two pages of one item
each (every page has at most 100 items, only the final page has an absent
cursor).  The loop performs 2 fetch calls, but the claim predicts
max 1 ((2 + 99) / 100) = 1 fetch call. -/
theorem C1_counterexample :
    paginateLoop (servePages [["a"], ["b"]]) id 2 none = some (["a", "b"], 2) ∧
    (2 : Nat) ≠ max 1 (((2 : Nat) + 99) / 100) := by
  constructor
  · rfl
  · decide

/-- C1 (amended): for every collection served as a nonempty sequence of pages
of at most 100 items, where only the final page carries an absent cursor, the
pagination loop terminates within one iteration per page, emits exactly the
collection's N projected values preserving page order and intra-page order,
and performs one fetch call per page; the number of fetch calls equals
max 1 ⌈N/100⌉ in the canonical serving where every non-final page holds
exactly 100 items and the final page is nonempty unless N = 0. -/
theorem C1_pagination_amended (ps : List (List String)) (project : String → String)
    (hne : ps ≠ []) (hbound : ∀ p ∈ ps, p.length ≤ 100) :
    paginateLoop (servePages ps) project ps.length none =
      some ((ps.flatten).map project, ps.length) ∧
    ((∀ p ∈ ps.dropLast, p.length = 100) →
      (ps.getLast hne ≠ [] ∨ ps.flatten = []) →
      ps.length = max 1 ((ps.flatten.length + 99) / 100)) := by
  have hlen : 0 < ps.length := List.length_pos.mpr hne
  constructor
  · have h := paginateLoop_servePages ps project ps.length none (by simpa using hlen)
      (by simp)
    simpa using h
  · intro hfull hlastcase
    have hsplit : ps.dropLast ++ [ps.getLast hne] = ps := List.dropLast_append_getLast hne
    have hN : ps.flatten.length =
        100 * ps.dropLast.length + (ps.getLast hne).length := by
      conv_lhs => rw [← hsplit]
      rw [List.length_flatten, List.map_append, List.sum_append,
        sum_map_length_const ps.dropLast hfull]
      simp
    have hdl : ps.dropLast.length = ps.length - 1 := List.length_dropLast ps
    rcases hlastcase with hlast | hzero
    · have hr1 : 1 ≤ (ps.getLast hne).length := by
        have := List.length_pos.mpr hlast
        omega
      have hr100 : (ps.getLast hne).length ≤ 100 :=
        hbound _ (List.getLast_mem hne)
      omega
    · have hall : ∀ p ∈ ps, p = [] := List.flatten_eq_nil_iff.mp hzero
      have hone : ps.length = 1 := by
        by_contra hne2
        have h2 : 2 ≤ ps.length := by omega
        have hdlne : ps.dropLast ≠ [] := by
          intro hdlnil
          rw [hdlnil] at hdl
          simp at hdl
          omega
        obtain ⟨q, hq⟩ := List.exists_mem_of_ne_nil _ hdlne
        have hq100 := hfull q hq
        have hqnil := hall q (List.dropLast_subset ps hq)
        rw [hqnil] at hq100
        simp at hq100
      have : ps.flatten.length = 0 := by rw [hzero]; rfl
      omega

/-- C1 witness: the amended pagination theorem at a concrete collection of
102 items served as a full page of 100 followed by a final page of 2. -/
theorem C1_pagination_amended_witness :
    paginateLoop (servePages [List.replicate 100 "x", ["y", "z"]]) id 2 none =
      some ((([List.replicate 100 "x", ["y", "z"]] : List (List String)).flatten).map id, 2) ∧
    (2 : Nat) = max 1 (((([List.replicate 100 "x", ["y", "z"]] :
        List (List String)).flatten).length + 99) / 100) := by
  have h := C1_pagination_amended [List.replicate 100 "x", ["y", "z"]] id
    (by decide) (by decide)
  refine ⟨h.1, ?_⟩
  have h2 := h.2 (by decide) (Or.inl (by decide))
  exact h2

/-! ### Session construction

Embeds `BskyListTool.__init__` (bskylisttool.py lines 17-41).  Inputs are the
explicit `handle` and `password` arguments, the parsed content of the
credential file (`none` when the file does not exist; otherwise the
`(my_handle, app_password)` pair produced by `_parse_config_file`, each
component `none` when its key is missing), and the content of the token file
(`none` when the file does not exist).  The result records the stored handle
and which login call was issued; a raised `ValueError` is an `Except.error`
carrying the message from the source.
-/

inductive LoginMethod where
  | tokenLogin (t : String)
  | passwordLogin (h p : String)
deriving DecidableEq

structure InitResult where
  handle : String
  login : LoginMethod
deriving DecidableEq

/-- The handle used by `__init__`: the explicit argument if given, else the
credential-file value. -/
def effHandle (handle : Option String)
    (credFile : Option (Option String × Option String)) : Option String :=
  match handle with
  | some h => some h
  | none => (credFile.getD (none, none)).1

/-- The password used by `__init__`: the explicit argument if given, else the
credential-file value. -/
def effPassword (password : Option String)
    (credFile : Option (Option String × Option String)) : Option String :=
  match password with
  | some p => some p
  | none => (credFile.getD (none, none)).2

def initTool (handle password : Option String)
    (credFile : Option (Option String × Option String))
    (tokenFile : Option String) : Except String InitResult :=
  match effHandle handle credFile with
  | none => .error "A bsky-handle was needed, but none was provided."
  | some h =>
    match effPassword password credFile with
    | none => .error "An app password is needed, but none was provided"
    | some p =>
      match tokenFile with
      | some t => .ok ⟨h, .tokenLogin t⟩
      | none => .ok ⟨h, .passwordLogin h p⟩

/-- C2 counterexample: with a cached token present but no handle or password
from any source, construction raises (the claim asserts handle and password
are optional when a cached token exists, and that the failure can only occur
when no cached token exists). -/
theorem C2_counterexample :
    initTool none none none (some "tok") =
      Except.error "A bsky-handle was needed, but none was provided." := rfl

/-- C2 (amended): construction requires both a handle and a password, each
taken from the explicit argument or else from the credential file, regardless
of whether a cached token exists; it raises a ValueError exactly when either
is missing after both sources are consulted.  When it succeeds and a cached
token exists, login uses the token and password login is skipped; when no
token exists, login uses the resolved handle and password. -/
theorem C2_credentials_amended (handle password : Option String)
    (credFile : Option (Option String × Option String)) (tokenFile : Option String) :
    ((∃ e, initTool handle password credFile tokenFile = .error e) ↔
      (effHandle handle credFile = none ∨ effPassword password credFile = none)) ∧
    (∀ t r, tokenFile = some t →
      initTool handle password credFile tokenFile = .ok r → r.login = .tokenLogin t) ∧
    (∀ r, tokenFile = none →
      initTool handle password credFile tokenFile = .ok r →
      ∃ h p, effHandle handle credFile = some h ∧ effPassword password credFile = some p ∧
        r.login = .passwordLogin h p) := by
  refine ⟨⟨?_, ?_⟩, ?_, ?_⟩
  · rintro ⟨e, he⟩
    by_contra hcon
    push_neg at hcon
    obtain ⟨hhne, hpne⟩ := hcon
    obtain ⟨h, hh⟩ := Option.ne_none_iff_exists'.mp hhne
    obtain ⟨p, hp⟩ := Option.ne_none_iff_exists'.mp hpne
    cases ht : tokenFile <;> simp [initTool, hh, hp, ht] at he
  · intro hor
    rcases hor with hh | hp
    · exact ⟨"A bsky-handle was needed, but none was provided.",
        by simp [initTool, hh]⟩
    · cases hh : effHandle handle credFile with
      | none => exact ⟨"A bsky-handle was needed, but none was provided.",
          by simp [initTool, hh]⟩
      | some h => exact ⟨"An app password is needed, but none was provided",
          by simp [initTool, hh, hp]⟩
  · intro t r ht hr
    cases hh : effHandle handle credFile with
    | none => simp [initTool, hh] at hr
    | some h =>
      cases hp : effPassword password credFile with
      | none => simp [initTool, hh, hp] at hr
      | some p =>
        rw [ht] at hr
        simp [initTool, hh, hp] at hr
        rw [← hr]
  · intro r ht hr
    cases hh : effHandle handle credFile with
    | none => simp [initTool, hh] at hr
    | some h =>
      cases hp : effPassword password credFile with
      | none => simp [initTool, hh, hp] at hr
      | some p =>
        rw [ht] at hr
        simp [initTool, hh, hp] at hr
        exact ⟨h, p, rfl, rfl, by rw [← hr]⟩

/-- C2 witness: with explicit credentials and a cached token, construction
succeeds and the login uses the token. -/
theorem C2_credentials_amended_witness :
    initTool (some "alice.example") (some "pw") none (some "tok") =
      Except.ok ⟨"alice.example", LoginMethod.tokenLogin "tok"⟩ ∧
    (⟨"alice.example", LoginMethod.tokenLogin "tok"⟩ : InitResult).login =
      LoginMethod.tokenLogin "tok" := by
  refine ⟨rfl, ?_⟩
  exact (C2_credentials_amended (some "alice.example") (some "pw") none
    (some "tok")).2.1 "tok" ⟨"alice.example", LoginMethod.tokenLogin "tok"⟩ rfl rfl

/-! ### List-name resolution

Embeds `BskyListTool._get_list_uri` (bskylisttool.py lines 138-148):

    response = client.app.bsky.graph.get_lists(Params(actor=owner))
    for l in response.lists:
        if l['name'] == listname:
            uri = l['uri']
            break
    else:
        raise ListNotFoundException(...)
    return uri

The server response is the ordered list of list descriptors; `getListUri`
is the for/else scan.  `getListUriSinglePage` additionally records the one
request the method issues: the call passes no cursor, so the request log is
the single entry `none` and only the first page of the owner's lists is
consulted.
-/

structure ListDesc where
  name : String
  uri : String
deriving DecidableEq

inductive ListLookupError where
  | notFound (name : String)
deriving DecidableEq

def getListUri : List ListDesc → String → Except ListLookupError String
  | [], listname => .error (.notFound listname)
  | l :: rest, listname =>
    if l.name == listname then .ok l.uri else getListUri rest listname

/-- A paginated get-lists endpoint: a cursor (absent for the first request)
is mapped to one page of list descriptors plus the next cursor. -/
structure ListsResponse where
  lists : List ListDesc
  cursor : Option String

/-- `_get_list_uri` against a paginated server: it issues exactly one
request, with no cursor, and scans only the page that request returns.  The
second component is the log of requests issued (the cursor passed in each). -/
def getListUriSinglePage (server : Option String → ListsResponse)
    (listname : String) : Except ListLookupError String × List (Option String) :=
  let response := server none
  (getListUri response.lists listname, [none])

theorem getListUri_eq_find (lists : List ListDesc) (listname : String) :
    getListUri lists listname =
      (match lists.find? (fun l => l.name == listname) with
       | some l => Except.ok l.uri
       | none => Except.error (ListLookupError.notFound listname)) := by
  induction lists with
  | nil => rfl
  | cons l rest ih =>
    by_cases hl : l.name == listname
    · simp [getListUri, List.find?, hl]
    · simp only [getListUri, List.find?, hl]
      simp only [Bool.false_eq_true, if_false, cond_false]
      exact ih

theorem getListUri_error_iff (lists : List ListDesc) (listname : String) :
    getListUri lists listname = .error (.notFound listname) ↔
      ∀ l ∈ lists, l.name ≠ listname := by
  rw [getListUri_eq_find]
  cases hf : lists.find? (fun l => l.name == listname) with
  | some l =>
    simp only [iff_false_intro]
    constructor
    · intro h
      exact absurd h (by simp)
    · intro h
      have := List.find?_some hf
      have hmem := List.mem_of_find?_eq_some hf
      exact absurd (by simpa using this) (h l hmem)
  | none =>
    have := List.find?_eq_none.mp hf
    constructor
    · intro _ l hl
      simpa using this l hl
    · intro _
      rfl

/-- C3: list resolution returns the uri of the first list, in server
response order, whose name exactly equals the requested name, and fails with
the ListNotFound error exactly when no list in the response has that name. -/
theorem C3_list_resolution (lists : List ListDesc) (listname : String) :
    getListUri lists listname =
      (match lists.find? (fun l => l.name == listname) with
       | some l => Except.ok l.uri
       | none => Except.error (ListLookupError.notFound listname)) ∧
    (getListUri lists listname = .error (.notFound listname) ↔
      ∀ l ∈ lists, l.name ≠ listname) :=
  ⟨getListUri_eq_find lists listname, getListUri_error_iff lists listname⟩

/-- C3 witness: over the lists [{Work, u1}, {Friends, u2}], resolving
"Friends" returns u2, and resolving a name that is absent errors. -/
theorem C3_list_resolution_witness :
    getListUri [⟨"Work", "u1"⟩, ⟨"Friends", "u2"⟩] "Friends" = Except.ok "u2" ∧
    getListUri [⟨"Work", "u1"⟩, ⟨"Friends", "u2"⟩] "Absent" =
      Except.error (ListLookupError.notFound "Absent") := by
  constructor
  · exact (C3_list_resolution [⟨"Work", "u1"⟩, ⟨"Friends", "u2"⟩] "Friends").1.trans
      (by rfl)
  · exact (C3_list_resolution [⟨"Work", "u1"⟩, ⟨"Friends", "u2"⟩] "Absent").2.mpr
      (by decide)

/-- C9: list resolution issues exactly one get-lists request, with an absent
cursor; its outcome depends only on the first page the server returns; and
when no first-page list bears the requested name it fails even though a
later page may contain a match. -/
theorem C9_single_page_lookup (server server2 : Option String → ListsResponse)
    (listname : String) :
    (getListUriSinglePage server listname).2 = [none] ∧
    ((server none).lists = (server2 none).lists →
      getListUriSinglePage server listname = getListUriSinglePage server2 listname) ∧
    ((∀ l ∈ (server none).lists, l.name ≠ listname) →
      (getListUriSinglePage server listname).1 =
        .error (.notFound listname)) := by
  refine ⟨rfl, ?_, ?_⟩
  · intro hfirst
    show (getListUri (server none).lists listname, [Option.none]) =
      (getListUri (server2 none).lists listname, [Option.none])
    rw [hfirst]
  · intro hnone
    show getListUri (server none).lists listname = _
    exact (getListUri_error_iff _ _).mpr hnone

/-- A server whose first page holds only the Work list, with a cursor
pointing at a second page that holds the Friends list. -/
def twoPageServer : Option String → ListsResponse
  | none => ⟨[⟨"Work", "u1"⟩], some "page2"⟩
  | some _ => ⟨[⟨"Friends", "u2"⟩], none⟩

/-- C9 witness: against `twoPageServer`, resolving "Friends" issues the
single cursor-free request and fails, missing the match on the second page. -/
theorem C9_single_page_lookup_witness :
    (getListUriSinglePage twoPageServer "Friends").2 = [none] ∧
    (getListUriSinglePage twoPageServer "Friends").1 =
      Except.error (ListLookupError.notFound "Friends") := by
  refine ⟨(C9_single_page_lookup twoPageServer twoPageServer "Friends").1, ?_⟩
  exact (C9_single_page_lookup twoPageServer twoPageServer "Friends").2.2 (by decide)

/-! ### Input-line normalization

Embeds the per-line normalization of `BskyListTool.add_file_to_list`
(bskylisttool.py lines 86-91), identical to `main` of bskyMassLister.py
(lines 57-62):

    if line.strip():
        line = line.rstrip()
        if line.startswith('@'):
            line = line[1::]
        if not line.startswith('did:'):
            line = self.resolver.handle.resolve(line)

Lines are modelled as `List Char`.  `classifyLine` performs the pure part:
`none` means the blank line is skipped, `Sum.inl` an already-opaque
identifier passed through, `Sum.inr` a handle that must be resolved.
`normalizeLine` plugs in the external resolver and counts resolver calls in
its second component.
-/

/-- Python `str.rstrip()`: remove trailing whitespace. -/
def rstrip (l : List Char) : List Char :=
  (l.reverse.dropWhile Char.isWhitespace).reverse

/-- Python `not line.strip()`: the line is empty or entirely whitespace. -/
def isBlank (l : List Char) : Bool :=
  l.all Char.isWhitespace

/-- Python `line[1::] if line.startswith('@') else line`. -/
def dropLeadingAt (l : List Char) : List Char :=
  match l with
  | '@' :: rest => rest
  | _ => l

/-- The opaque-identifier marker `did:`. -/
def didPre : List Char := ['d', 'i', 'd', ':']

def classifyLine (line : List Char) : Option (List Char ⊕ List Char) :=
  if isBlank line then none
  else
    let l2 := dropLeadingAt (rstrip line)
    if didPre.isPrefixOf l2 then some (Sum.inl l2) else some (Sum.inr l2)

/-- Normalize one input line; the `Nat` is the number of resolver calls. -/
def normalizeLine (resolve : List Char → List Char) (line : List Char) :
    Option (List Char × Nat) :=
  match classifyLine line with
  | none => none
  | some (Sum.inl d) => some (d, 0)
  | some (Sum.inr h) => some (resolve h, 1)

theorem dropWhile_append_cons (p : Char → Bool) (a : List Char) (c : Char)
    (b : List Char) (hc : p c = false) :
    List.dropWhile p (a ++ c :: b) = List.dropWhile p a ++ c :: b := by
  induction a with
  | nil => simp [List.dropWhile, hc]
  | cons x xs ih =>
    by_cases hx : p x
    · simp [List.dropWhile, hx, ih]
    · simp [List.dropWhile, hx]

theorem rstrip_append (d t : List Char) (c : Char) (cs : List Char)
    (hd : d.reverse = c :: cs) (hc : c.isWhitespace = false) :
    rstrip (d ++ t) = d ++ rstrip t := by
  unfold rstrip
  rw [List.reverse_append, hd, dropWhile_append_cons Char.isWhitespace t.reverse c cs hc,
    List.reverse_append, List.reverse_cons]
  have : (c :: cs).reverse = d := by rw [← hd, List.reverse_reverse]
  rw [List.reverse_cons] at this
  rw [this]

theorem rstrip_cons_of_not_ws (c : Char) (s : List Char) (hc : c.isWhitespace = false) :
    rstrip (c :: s) = c :: rstrip s :=
  rstrip_append [c] s c [] rfl hc

/-- `rstrip` only removes trailing characters, and all of them whitespace. -/
theorem rstrip_spec (line : List Char) :
    line = rstrip line ++ (line.reverse.takeWhile Char.isWhitespace).reverse ∧
    ∀ c ∈ (line.reverse.takeWhile Char.isWhitespace).reverse, c.isWhitespace = true := by
  constructor
  · conv_lhs => rw [← List.reverse_reverse line,
      ← List.takeWhile_append_dropWhile (p := Char.isWhitespace) (l := line.reverse)]
    rw [List.reverse_append]
    rfl
  · intro c hc
    rw [List.mem_reverse] at hc
    exact List.mem_takeWhile_imp hc

theorem rstrip_preserves_didPre (s : List Char) (h : didPre.isPrefixOf s = true) :
    didPre.isPrefixOf (rstrip s) = true := by
  rw [List.isPrefixOf_iff_prefix] at h ⊢
  obtain ⟨t, ht⟩ := h
  rw [← ht, rstrip_append didPre t ':' ['d', 'i', 'd'] rfl rfl]
  exact List.prefix_append didPre (rstrip t)

/-- C4: per-line normalization skips blank (all-whitespace) lines with no
output; otherwise it trims trailing whitespace only, drops one leading `@`
if present, passes a `did:`-prefixed result through unchanged with zero
resolver calls, and resolves anything else with exactly one resolver call. -/
theorem C4_normalization (resolve : List Char → List Char) (line : List Char) :
    (isBlank line = true → normalizeLine resolve line = none) ∧
    (line = rstrip line ++ (line.reverse.takeWhile Char.isWhitespace).reverse ∧
      ∀ c ∈ (line.reverse.takeWhile Char.isWhitespace).reverse, c.isWhitespace = true) ∧
    (isBlank line = false →
      (didPre.isPrefixOf (dropLeadingAt (rstrip line)) = true →
        normalizeLine resolve line = some (dropLeadingAt (rstrip line), 0)) ∧
      (didPre.isPrefixOf (dropLeadingAt (rstrip line)) = false →
        normalizeLine resolve line = some (resolve (dropLeadingAt (rstrip line)), 1))) := by
  refine ⟨?_, rstrip_spec line, ?_⟩
  · intro hb
    simp [normalizeLine, classifyLine, hb]
  · intro hb
    constructor
    · intro hdid
      simp [normalizeLine, classifyLine, hb, hdid]
    · intro hdid
      simp [normalizeLine, classifyLine, hb, hdid]

/-- A resolver used only to instantiate witnesses. -/
def fixedResolver : List Char → List Char :=
  fun _ => String.toList "did:plc:resolved"

/-- C4 witness: `@alice.example` is resolved (one resolver call) after the
`@` is dropped; a blank line yields no output. -/
theorem C4_normalization_witness :
    normalizeLine fixedResolver (String.toList "@alice.example") =
      some (String.toList "did:plc:resolved", 1) ∧
    normalizeLine fixedResolver (String.toList "   ") = none := by
  constructor
  · have h := ((C4_normalization fixedResolver (String.toList "@alice.example")).2.2
      (by decide)).2 (by decide)
    exact h.trans (by decide)
  · exact (C4_normalization fixedResolver (String.toList "   ")).1 (by decide)

/-- C10: a line consisting of `@` immediately followed by a `did:`-prefixed
string is returned with the leading `@` removed (and trailing whitespace
trimmed) and zero resolver calls, because the `@` is stripped before the
`did:` check; in particular, with no trailing whitespace the result is
exactly the line minus its `@`. -/
theorem C10_at_did_passthrough (resolve : List Char → List Char) (s : List Char)
    (hdid : didPre.isPrefixOf s = true) :
    normalizeLine resolve ('@' :: s) = some (rstrip s, 0) ∧
    (rstrip s = s → normalizeLine resolve ('@' :: s) = some (s, 0)) := by
  have hb : isBlank ('@' :: s) = false := by
    simp [isBlank]
  have hr : rstrip ('@' :: s) = '@' :: rstrip s :=
    rstrip_cons_of_not_ws '@' s (by decide)
  have hda : dropLeadingAt ('@' :: rstrip s) = rstrip s := rfl
  have hdid2 : didPre.isPrefixOf (rstrip s) = true := rstrip_preserves_didPre s hdid
  have h1 : normalizeLine resolve ('@' :: s) = some (rstrip s, 0) := by
    simp [normalizeLine, classifyLine, hb, hr, hda, hdid2]
  exact ⟨h1, fun hs => by rw [h1, hs]⟩

/-- C10 witness: the line `@did:plc:abc123` is returned as `did:plc:abc123`
with zero resolver calls. -/
theorem C10_at_did_passthrough_witness :
    normalizeLine fixedResolver ('@' :: String.toList "did:plc:abc123") =
      some (String.toList "did:plc:abc123", 0) :=
  (C10_at_did_passthrough fixedResolver (String.toList "did:plc:abc123")
    (by decide)).2 (by decide)

/-! ### Membership creation

Embeds `add_user_to_list` (bskyMassLister.py lines 22-30) / the
`listitem.create` call of `add_file_to_list` (bskylisttool.py lines 92-99):

    client.app.bsky.graph.listitem.create(
        BSKY_HANDLE,
        models.AppBskyGraphListitem.Record(
            list=list_uri, subject=did,
            created_at=client.get_current_time_iso()))

The client state holds the membership records created so far and a clock
modelling `get_current_time_iso`; real time strictly increases between two
consecutive calls, so the clock advances by one per created record.
-/

structure MRecord where
  list : String
  subject : String
  createdAt : Nat
deriving DecidableEq

structure ClientState where
  records : List MRecord
  clock : Nat
deriving DecidableEq

def addUserToList (st : ClientState) (listUri did : String) : ClientState :=
  { records := st.records ++ [⟨listUri, did, st.clock⟩], clock := st.clock + 1 }

/-- C5: membership addition is not idempotent.  Every call appends exactly
one new record, with no existence check against the current records (the
state is arbitrary, so it may already contain the same (list, subject)
pair); two calls with the same pair create two records whose creation
timestamps differ. -/
theorem C5_no_dedup (st : ClientState) (listUri did : String) :
    (addUserToList st listUri did).records = st.records ++ [⟨listUri, did, st.clock⟩] ∧
    (addUserToList (addUserToList st listUri did) listUri did).records =
      st.records ++ [⟨listUri, did, st.clock⟩, ⟨listUri, did, st.clock + 1⟩] ∧
    (⟨listUri, did, st.clock⟩ : MRecord).createdAt ≠
      (⟨listUri, did, st.clock + 1⟩ : MRecord).createdAt ∧
    (addUserToList st listUri did).records.length = st.records.length + 1 := by
  refine ⟨rfl, ?_, by simp, by simp [addUserToList]⟩
  simp [addUserToList]

/-! ### The `list add` run

Embeds the whole loop of `BskyListTool.add_file_to_list` (bskylisttool.py
lines 84-99): each input line is classified (`classifyLine`), handles are
resolved through the external resolver (which may fail with a resolution
error), and each normalized identifier is written as one membership record
(the write itself may fail with a transport error).  An exception aborts
the run immediately: no later line is processed and nothing is rolled back.

`WState` is the observable client state: the records created, the number of
membership-creation requests issued, and the clock.  `resolve` returns
`none` for a failing resolution; `writeOk k` tells whether the k-th
membership-creation request succeeds.  An `Except.error` result carries the
state at the moment the exception was raised.
-/

structure CRecord where
  list : List Char
  subject : List Char
  createdAt : Nat
deriving DecidableEq

structure WState where
  records : List CRecord
  writeCalls : Nat
  clock : Nat
deriving DecidableEq

/-- One `listitem.create` request: issued (counted) unconditionally; on
success it appends the record and advances the clock. -/
def createListItem (st : WState) (uri subj : List Char) (ok : Bool) :
    Except WState WState :=
  if ok then
    .ok ⟨st.records ++ [⟨uri, subj, st.clock⟩], st.writeCalls + 1, st.clock + 1⟩
  else
    .error ⟨st.records, st.writeCalls + 1, st.clock⟩

/-- One iteration of the `for line in f` body. -/
def processLine (resolve : List Char → Option (List Char)) (writeOk : Nat → Bool)
    (uri line : List Char) (st : WState) : Except WState WState :=
  match classifyLine line with
  | none => .ok st
  | some (Sum.inl d) => createListItem st uri d (writeOk st.writeCalls)
  | some (Sum.inr h) =>
    match resolve h with
    | none => .error st
    | some d => createListItem st uri d (writeOk st.writeCalls)

/-- The loop over all input lines; an exception propagates and aborts the
remaining lines. -/
def runAdd (resolve : List Char → Option (List Char)) (writeOk : Nat → Bool)
    (uri : List Char) : List (List Char) → WState → Except WState WState
  | [], st => .ok st
  | line :: rest, st =>
    match processLine resolve writeOk uri line st with
    | .error e => .error e
    | .ok st2 => runAdd resolve writeOk uri rest st2

theorem runAdd_append (resolve : List Char → Option (List Char))
    (writeOk : Nat → Bool) (uri : List Char) (xs ys : List (List Char)) (st : WState) :
    runAdd resolve writeOk uri (xs ++ ys) st =
      (match runAdd resolve writeOk uri xs st with
       | .error e => .error e
       | .ok st2 => runAdd resolve writeOk uri ys st2) := by
  induction xs generalizing st with
  | nil => simp [runAdd]
  | cons x xs ih =>
    simp only [List.cons_append, runAdd]
    cases processLine resolve writeOk uri x st with
    | error e => rfl
    | ok st2 => exact ih st2

theorem classifyLine_blank (line : List Char) (hb : isBlank line = true) :
    classifyLine line = none := by
  unfold classifyLine
  rw [hb]
  rfl

theorem classifyLine_not_blank (line : List Char) (hb : isBlank line = false) :
    classifyLine line =
      (if didPre.isPrefixOf (dropLeadingAt (rstrip line)) then
        some (Sum.inl (dropLeadingAt (rstrip line)))
       else some (Sum.inr (dropLeadingAt (rstrip line)))) := by
  unfold classifyLine
  rw [hb]
  simp

theorem isBlank_false_of_classifyLine_some (line : List Char)
    (v : List Char ⊕ List Char) (h : classifyLine line = some v) :
    isBlank line = false := by
  by_contra hb
  simp only [Bool.not_eq_false] at hb
  rw [classifyLine_blank line hb] at h
  cases h

theorem processLine_classify_none (resolve : List Char → Option (List Char))
    (writeOk : Nat → Bool) (uri line : List Char) (st : WState)
    (hcl : classifyLine line = none) :
    processLine resolve writeOk uri line st = .ok st := by
  unfold processLine
  rw [hcl]

theorem processLine_classify_inl (resolve : List Char → Option (List Char))
    (writeOk : Nat → Bool) (uri line : List Char) (st : WState) (d : List Char)
    (hcl : classifyLine line = some (Sum.inl d)) :
    processLine resolve writeOk uri line st =
      createListItem st uri d (writeOk st.writeCalls) := by
  unfold processLine
  rw [hcl]

theorem processLine_classify_inr (resolve : List Char → Option (List Char))
    (writeOk : Nat → Bool) (uri line : List Char) (st : WState) (hh : List Char)
    (hcl : classifyLine line = some (Sum.inr hh)) :
    processLine resolve writeOk uri line st =
      (match resolve hh with
       | none => .error st
       | some d => createListItem st uri d (writeOk st.writeCalls)) := by
  unfold processLine
  rw [hcl]

theorem createListItem_ok (st st2 : WState) (uri subj : List Char) (ok : Bool)
    (h : createListItem st uri subj ok = .ok st2) :
    st2 = ⟨st.records ++ [⟨uri, subj, st.clock⟩], st.writeCalls + 1, st.clock + 1⟩ := by
  unfold createListItem at h
  cases hok : ok <;> rw [hok] at h
  · cases h
  · injection h with h
    exact h.symm

theorem createListItem_error (st e : WState) (uri subj : List Char) (ok : Bool)
    (h : createListItem st uri subj ok = .error e) :
    e = ⟨st.records, st.writeCalls + 1, st.clock⟩ := by
  unfold createListItem at h
  cases hok : ok <;> rw [hok] at h
  · injection h with h
    exact h.symm
  · cases h

theorem processLine_ok_writeCalls (resolve : List Char → Option (List Char))
    (writeOk : Nat → Bool) (uri line : List Char) (st st2 : WState)
    (h : processLine resolve writeOk uri line st = .ok st2) :
    st2.writeCalls = st.writeCalls + (if isBlank line then 0 else 1) := by
  cases hcl : classifyLine line with
  | none =>
    have hbl : isBlank line = true := by
      by_contra hb
      simp only [Bool.not_eq_true] at hb
      rw [classifyLine_not_blank line hb] at hcl
      split at hcl <;> cases hcl
    rw [processLine_classify_none resolve writeOk uri line st hcl] at h
    injection h with h
    simp [← h, hbl]
  | some v =>
    have hbl : isBlank line = false := isBlank_false_of_classifyLine_some line v hcl
    rw [hbl]
    cases v with
    | inl d =>
      rw [processLine_classify_inl resolve writeOk uri line st d hcl] at h
      have := createListItem_ok st st2 uri d (writeOk st.writeCalls) h
      simp [this]
    | inr hh =>
      rw [processLine_classify_inr resolve writeOk uri line st hh hcl] at h
      cases hr : resolve hh with
      | none => rw [hr] at h; cases h
      | some d =>
        rw [hr] at h
        have h2 := createListItem_ok st st2 uri d (writeOk st.writeCalls) h
        simp [h2]

theorem runAdd_ok_writeCalls (resolve : List Char → Option (List Char))
    (writeOk : Nat → Bool) (uri : List Char) (ls : List (List Char))
    (st st2 : WState) (h : runAdd resolve writeOk uri ls st = .ok st2) :
    st2.writeCalls = st.writeCalls + (ls.filter (fun l => !(isBlank l))).length := by
  induction ls generalizing st with
  | nil =>
    simp [runAdd] at h
    simp [← h]
  | cons x xs ih =>
    simp only [runAdd] at h
    cases hp : processLine resolve writeOk uri x st with
    | error e => rw [hp] at h; cases h
    | ok stm =>
      rw [hp] at h
      have h1 := processLine_ok_writeCalls resolve writeOk uri x st stm hp
      have h2 := ih stm h
      by_cases hb : isBlank x
      · simp [hb] at h1
        simp [List.filter, hb, h2, h1]
      · simp only [Bool.not_eq_true] at hb
        simp [hb] at h1
        simp [List.filter, hb, h2, h1]
        omega

theorem processLine_records_extend (resolve : List Char → Option (List Char))
    (writeOk : Nat → Bool) (uri line : List Char) (st : WState) :
    (∀ st2, processLine resolve writeOk uri line st = .ok st2 →
      ∃ suf, st2.records = st.records ++ suf) ∧
    (∀ e, processLine resolve writeOk uri line st = .error e →
      e.records = st.records) := by
  constructor
  · intro st2 h
    cases hcl : classifyLine line with
    | none =>
      rw [processLine_classify_none resolve writeOk uri line st hcl] at h
      injection h with h
      exact ⟨[], by simp [← h]⟩
    | some v =>
      cases v with
      | inl d =>
        rw [processLine_classify_inl resolve writeOk uri line st d hcl] at h
        have h2 := createListItem_ok st st2 uri d (writeOk st.writeCalls) h
        exact ⟨[⟨uri, d, st.clock⟩], by simp [h2]⟩
      | inr hh =>
        rw [processLine_classify_inr resolve writeOk uri line st hh hcl] at h
        cases hr : resolve hh with
        | none => rw [hr] at h; cases h
        | some d =>
          rw [hr] at h
          have h2 := createListItem_ok st st2 uri d (writeOk st.writeCalls) h
          exact ⟨[⟨uri, d, st.clock⟩], by simp [h2]⟩
  · intro e h
    cases hcl : classifyLine line with
    | none =>
      rw [processLine_classify_none resolve writeOk uri line st hcl] at h
      cases h
    | some v =>
      cases v with
      | inl d =>
        rw [processLine_classify_inl resolve writeOk uri line st d hcl] at h
        have h2 := createListItem_error st e uri d (writeOk st.writeCalls) h
        simp [h2]
      | inr hh =>
        rw [processLine_classify_inr resolve writeOk uri line st hh hcl] at h
        cases hr : resolve hh with
        | none =>
          rw [hr] at h
          injection h with h
          simp [← h]
        | some d =>
          rw [hr] at h
          have h2 := createListItem_error st e uri d (writeOk st.writeCalls) h
          simp [h2]

theorem runAdd_ok_records_extend (resolve : List Char → Option (List Char))
    (writeOk : Nat → Bool) (uri : List Char) (ls : List (List Char))
    (st st2 : WState) (h : runAdd resolve writeOk uri ls st = .ok st2) :
    ∃ suf, st2.records = st.records ++ suf := by
  induction ls generalizing st with
  | nil =>
    simp [runAdd] at h
    exact ⟨[], by simp [← h]⟩
  | cons x xs ih =>
    simp only [runAdd] at h
    cases hp : processLine resolve writeOk uri x st with
    | error e => rw [hp] at h; cases h
    | ok stm =>
      rw [hp] at h
      obtain ⟨s1, hs1⟩ := (processLine_records_extend resolve writeOk uri x st).1 stm hp
      obtain ⟨s2, hs2⟩ := ih stm h
      exact ⟨s1 ++ s2, by rw [hs2, hs1, List.append_assoc]⟩

/-- C6: if, during a list-add run, line i raises (failed resolution or
failed membership write) after the first i lines succeeded, then the whole
run aborts in exactly the state of that exception — no membership request is
issued for any later line — the records created for earlier lines are kept
(never rolled back), and the successful prefix issued exactly one membership
write per accepted (non-blank) line. -/
theorem C6_abort_on_failure (resolve : List Char → Option (List Char))
    (writeOk : Nat → Bool) (uri : List Char) (lines : List (List Char))
    (st stMid stErr : WState) (i : Nat) (hi : i < lines.length)
    (hok : runAdd resolve writeOk uri (lines.take i) st = .ok stMid)
    (hfail : processLine resolve writeOk uri (lines.get ⟨i, hi⟩) stMid = .error stErr) :
    runAdd resolve writeOk uri lines st = .error stErr ∧
    (∃ suf, stErr.records = st.records ++ suf) ∧
    stMid.writeCalls =
      st.writeCalls + ((lines.take i).filter (fun l => !(isBlank l))).length := by
  have hsplit : lines.take i ++ lines.drop i = lines := List.take_append_drop i lines
  have hdrop : lines.drop i = lines.get ⟨i, hi⟩ :: lines.drop (i + 1) := by
    rw [List.drop_eq_getElem_cons hi]
    rfl
  refine ⟨?_, ?_, runAdd_ok_writeCalls resolve writeOk uri (lines.take i) st stMid hok⟩
  · conv_lhs => rw [← hsplit]
    rw [runAdd_append, hok, hdrop]
    simp only [runAdd, hfail]
  · obtain ⟨s1, hs1⟩ :=
      runAdd_ok_records_extend resolve writeOk uri (lines.take i) st stMid hok
    have he := (processLine_records_extend resolve writeOk uri
      (lines.get ⟨i, hi⟩) stMid).2 stErr hfail
    exact ⟨s1, by rw [he, hs1]⟩

/-- A resolver for the C6 witness: it knows alice.example and nothing else. -/
def partialResolver : List Char → Option (List Char) :=
  fun h => if h = String.toList "alice.example" then some (String.toList "did:plc:alice")
    else none

/-- C6 witness: over the lines [alice.example, bob.example, did:plc:c], where
resolution of bob.example fails, the run creates exactly the record for the
first line, issues exactly one write, and aborts without touching the third
line. -/
theorem C6_abort_on_failure_witness :
    runAdd partialResolver (fun _ => true) (String.toList "u1")
      [String.toList "alice.example", String.toList "bob.example",
        String.toList "did:plc:c"] ⟨[], 0, 0⟩ =
      .error ⟨[⟨String.toList "u1", String.toList "did:plc:alice", 0⟩], 1, 1⟩ ∧
    (⟨[⟨String.toList "u1", String.toList "did:plc:alice", 0⟩], 1, 1⟩ :
      WState).writeCalls = 1 := by
  have h := C6_abort_on_failure partialResolver (fun _ => true) (String.toList "u1")
    [String.toList "alice.example", String.toList "bob.example",
      String.toList "did:plc:c"]
    ⟨[], 0, 0⟩ ⟨[⟨String.toList "u1", String.toList "did:plc:alice", 0⟩], 1, 1⟩
    ⟨[⟨String.toList "u1", String.toList "did:plc:alice", 0⟩], 1, 1⟩
    1 (by decide) (by rfl) (by rfl)
  exact ⟨h.1, rfl⟩

/-! ### Post-URL parsing

Embeds `BskyListTool._link_to_at_uri` (bskylisttool.py lines 150-156):

    http_url = link.split('/')
    profile = http_url[4]
    rkey = http_url[6]
    did = self.client.resolve_handle(profile).did
    at_uri = f"at:.../{did}/app.bsky.feed.post/{rkey}"

`splitChar` is Python `str.split` with a one-character separator.  The only
failure the source can raise here is the uncaught Python IndexError from
`http_url[4]` or `http_url[6]`; `UrlError.malformedUrlError` exists in the
error vocabulary only so that the claimed explicit error can be compared
with what the code produces.
-/

inductive UrlError where
  | indexError
  | malformedUrlError
deriving DecidableEq

/-- Python `s.split(c)` for a single-character separator. -/
def splitChar (c : Char) : List Char → List (List Char)
  | [] => [[]]
  | x :: xs =>
    match splitChar c xs with
    | [] => [[]]
    | r :: rs => if x == c then [] :: r :: rs else (x :: r) :: rs

def linkToAtUri (resolve : List Char → List Char) (link : List Char) :
    Except UrlError (List Char) :=
  match (splitChar '/' link).get? 4, (splitChar '/' link).get? 6 with
  | some profile, some rkey =>
    .ok (String.toList "at://" ++ resolve profile ++
      String.toList "/app.bsky.feed.post/" ++ rkey)
  | _, _ => .error .indexError

/-- C7: when splitting the URL on `/` yields at least 7 segments, parsing
resolves segment 4 (the owning handle) to its identifier X and returns
exactly at://X/app.bsky.feed.post/ followed by segment 6 (the record key). -/
theorem C7_link_parse (resolve : List Char → List Char) (link : List Char)
    (h : 7 ≤ (splitChar '/' link).length) :
    linkToAtUri resolve link =
      .ok (String.toList "at://" ++ resolve ((splitChar '/' link).getD 4 []) ++
        String.toList "/app.bsky.feed.post/" ++ (splitChar '/' link).getD 6 []) := by
  have h4 : (splitChar '/' link).get? 4 =
      some ((splitChar '/' link).getD 4 []) := by
    rw [List.getD_eq_getElem _ _ (by omega)]
    exact List.get?_eq_get (by omega)
  have h6 : (splitChar '/' link).get? 6 =
      some ((splitChar '/' link).getD 6 []) := by
    rw [List.getD_eq_getElem _ _ (by omega)]
    exact List.get?_eq_get (by omega)
  unfold linkToAtUri
  rw [h4, h6]

/-- C7 witness: parsing a well-formed post URL. -/
theorem C7_link_parse_witness :
    linkToAtUri (fun _ => String.toList "did:plc:x")
      (String.toList "https://bsky.app/profile/alice.example/post/rkey123") =
      Except.ok (String.toList "at://did:plc:x/app.bsky.feed.post/rkey123") := by
  have h := C7_link_parse (fun _ => String.toList "did:plc:x")
    (String.toList "https://bsky.app/profile/alice.example/post/rkey123")
    (by decide)
  exact h.trans (by rfl)

/-- C8: on a URL with fewer than 7 slash-separated segments the code raises
an uncaught IndexError from out-of-bounds indexing; it never produces an
explicit malformed-URL error (no such conversion exists in the source).
The first conjunct evaluates the failing input from the claim. -/
theorem C8_index_fault (resolve : List Char → List Char) (link : List Char)
    (h : (splitChar '/' link).length < 7) :
    linkToAtUri resolve link = .error .indexError ∧
    (∀ e, linkToAtUri resolve link = .error e → e ≠ .malformedUrlError) := by
  have h6 : (splitChar '/' link).get? 6 = none := List.get?_eq_none.mpr (by omega)
  have hmain : linkToAtUri resolve link = .error .indexError := by
    unfold linkToAtUri
    rw [h6]
    cases (splitChar '/' link).get? 4 <;> rfl
  refine ⟨hmain, ?_⟩
  intro e he
  rw [hmain] at he
  injection he with he
  rw [← he]
  decide

/-- C8 witness: the claimed failing shape at a concrete short URL: the
result is the IndexError fault, not a malformed-URL error. -/
theorem C8_index_fault_witness :
    linkToAtUri (fun l => l) (String.toList "https://bsky.app/profile") =
      Except.error UrlError.indexError ∧
    UrlError.indexError ≠ UrlError.malformedUrlError := by
  have h := C8_index_fault (fun l => l) (String.toList "https://bsky.app/profile")
    (by decide)
  exact ⟨h.1, by decide⟩

end BskyTools
